import Mathlib

/-!
Shallow embedding of the labJ client core, translated from the repository
sources:
  - the notebook rendering pipeline and editor (src/unnamed/part_006:
    `escapeHtml`, `highlightText`, `blocksToHtml`, `TiptapEditor.onUpdate`);
  - the notebook refresh / dirty-buffer state (src/unnamed/part_005:
    `NotebookView.refresh` and the html passed to the editor);
  - the session sidebar (src/ui/src/components/layout/LeftSidebar.tsx:
    `refresh`, `markFavorite`, `setArchiveState`, `commitEditing`, the
    global keydown listener).
Machine strings are Lean `String`s; JS objects become structures; the
fire-and-forget Remote Gateway calls are reified as a `ServerCall` list and
their success/failure as a `Bool` parameter; `console.error` logging is
reified as a `LogEvent` list.
-/

namespace LabJ

/-! ## Rendering pipeline (src/unnamed/part_006) -/

/-- Whitespace test used by `trimWs`; covers the ASCII whitespace that
`String.prototype.trim` strips. -/
def isWs (c : Char) : Bool :=
  c = ' ' || c = '\t' || c = '\n' || c = '\r'

/-- Model of JavaScript `term.trim()`: strip whitespace from both ends. -/
def trimWs (s : String) : String :=
  String.mk (((s.data.dropWhile isWs).reverse.dropWhile isWs).reverse)

/-- Escape one character the way the two chained `replace` calls in
`escapeHtml` do: `<` becomes `&lt;`, `>` becomes `&gt;` (the second pass
cannot hit the output of the first, so the chain acts per character). -/
def escapeChar (c : Char) : String :=
  if c = '<' then "&lt;" else if c = '>' then "&gt;" else String.singleton c

/-- Escape a character list: concatenation of the per-character escapes. -/
def escapeList : List Char → String
  | [] => ""
  | c :: cs => escapeChar c ++ escapeList cs

/-- Model of `escapeHtml` (part_006 lines 73-75):
`text.replace(/</g, "&lt;").replace(/>/g, "&gt;")`. -/
def escapeHtml (text : String) : String :=
  escapeList text.data

/-- Case-insensitive prefix test: does the query (second argument) match at
the head of the text (first argument)?  Models the JS regex `i` flag by
lower-casing both sides (identical on ASCII). -/
def matchesAt : List Char → List Char → Bool
  | _, [] => true
  | [], _ :: _ => false
  | c :: ts, q :: qs => (c.toLower == q.toLower) && matchesAt ts qs

/-- Scan loop of `highlightText` (part_006 lines 84-95): walk the text; at
each position, if the (non-empty) query `q0 :: qs` matches
case-insensitively, emit the matched original characters escaped inside the
mark element and resume after the match (the regex `lastIndex` advance);
otherwise emit the escaped character and advance one position.  The `fuel`
argument is initialised to the text length, so the `0, _ :: _` branch is
never reached; it only makes the recursion structural. -/
def scanGo (q0 : Char) (qs : List Char) : Nat → List Char → String
  | _, [] => ""
  | 0, _ :: _ => ""
  | Nat.succ fuel, c :: rest =>
    if matchesAt (c :: rest) (q0 :: qs) then
      "<mark class=\"search-highlight\">" ++ escapeList ((c :: rest).take (qs.length + 1))
        ++ "</mark>" ++ scanGo q0 qs fuel ((c :: rest).drop (qs.length + 1))
    else
      escapeChar c ++ scanGo q0 qs fuel rest

/-- Model of `highlightText` (part_006 lines 77-99).  `term` is trimmed; an
empty query short-circuits to `escapeHtml`.  Otherwise the query is used as
an escaped literal pattern with flags `gi`: every case-insensitive
occurrence is wrapped in the mark element and everything else is escaped.
The `try/catch` in the source is dead code once the metacharacters are
escaped (the constructed regex is always valid), so the model is total. -/
def highlightText (text term : String) : String :=
  match (trimWs term).data with
  | [] => escapeHtml text
  | q0 :: qs => scanGo q0 qs text.data.length text.data

/-- JavaScript `o || d` on an optional string field: an absent field and the
empty string are both falsy and fall back to the default. -/
def jsOr (o : Option String) (d : String) : String :=
  match o with
  | some s => if s = "" then d else s
  | none => d

/-- Block kinds of the `NotebookBlock` interface (part_005/part_006). -/
inductive BlockType where
  | paragraph | chart | graph | table | log
deriving DecidableEq

/-- Payload of a block (`content: any` in the source).  `text` and `title`
are the two fields the renderer reads (absent modelled as `none`); `json`
carries `JSON.stringify(b.content)`, the serialisation used by the fallback
branch. -/
structure BlockContent where
  text : Option String
  title : Option String
  json : String
deriving DecidableEq

/-- One notebook content block. -/
structure NotebookBlock where
  id : String
  type : BlockType
  content : BlockContent
deriving DecidableEq

/-- One branch of the `map` inside `blocksToHtml` (part_006 lines 59-71). -/
def renderBlock (searchTerm : String) (b : NotebookBlock) : String :=
  match b.type with
  | BlockType.paragraph => "<p>" ++ highlightText (jsOr b.content.text "") searchTerm ++ "</p>"
  | BlockType.chart => "<p>[Chart: " ++ escapeHtml (jsOr b.content.title "Chart") ++ "]</p>"
  | _ => "<p>" ++ escapeHtml b.content.json ++ "</p>"

/-- Model of `blocksToHtml` (part_006 lines 59-71): render every block
(there is no `log` branch and no filtering here) and join with newlines. -/
def blocksToHtml (blocks : List NotebookBlock) (searchTerm : String) : String :=
  String.intercalate "\n" (blocks.map (renderBlock searchTerm))

/-! ### Declarative characterization of the highlight output

Following the spec's words, the highlighted output is a segmentation of the
input text into unmatched characters and matched term occurrences, each
piece escaped and the occurrences wrapped in the highlight marker.  The
pieces below give that segmentation a name so that `highlightText` can be
proved to produce one for every text and every non-empty term. -/

/-- One piece of the highlighted output: an unmatched raw character or a
mark-wrapped matched character sequence. -/
inductive HPiece where
  | raw : Char → HPiece
  | mark : List Char → HPiece
deriving DecidableEq

/-- Characters a piece covers in the original text. -/
def pieceChars : HPiece → List Char
  | HPiece.raw c => [c]
  | HPiece.mark m => m

/-- Characters a piece list covers in the original text. -/
def piecesChars : List HPiece → List Char
  | [] => []
  | p :: ps => pieceChars p ++ piecesChars ps

/-- Markup a piece renders to: unmatched characters are escaped, matched
sequences are escaped and wrapped in the mark element. -/
def renderPiece : HPiece → String
  | HPiece.raw c => escapeChar c
  | HPiece.mark m => "<mark class=\"search-highlight\">" ++ escapeList m ++ "</mark>"

/-- Markup a piece list renders to. -/
def renderPieces : List HPiece → String
  | [] => ""
  | p :: ps => renderPiece p ++ renderPieces ps

/-- Case-insensitive equality of two character sequences, the match
relation of the literal case-insensitive search. -/
def ciEq (a b : List Char) : Bool :=
  a.map Char.toLower == b.map Char.toLower

/-- Segmentation companion of `scanGo`: the same greedy left-to-right scan,
recording the pieces instead of rendering them.  `renderPieces` of this
segmentation is exactly the `scanGo` output. -/
def segGo (q0 : Char) (qs : List Char) : Nat → List Char → List HPiece
  | _, [] => []
  | 0, _ :: _ => []
  | Nat.succ fuel, c :: rest =>
    if matchesAt (c :: rest) (q0 :: qs) then
      HPiece.mark ((c :: rest).take (qs.length + 1))
        :: segGo q0 qs fuel ((c :: rest).drop (qs.length + 1))
    else
      HPiece.raw c :: segGo q0 qs fuel rest

/-! ## Notebook state and editor (src/unnamed/part_005, part_006) -/

/-- Session as seen by the notebook view (part_005): string id, title and
the wholesale-replaced block list. -/
structure NbSession where
  id : String
  title : String
  blocks : List NotebookBlock
deriving DecidableEq

/-- One entry of the `sessionState` record: `{ html, dirty }`. -/
structure EditBuffer where
  html : String
  dirty : Bool
deriving DecidableEq

/-- The `sessionState` record keyed by `String(session.id)`, modelled as an
association list (JS object property order). -/
abbrev SessionStateMap := List (String × EditBuffer)

/-- Property read `state[key]` on the modelled record. -/
def lookupBuf : SessionStateMap → String → Option EditBuffer
  | [], _ => none
  | p :: rest, k => if p.1 = k then some p.2 else lookupBuf rest k

/-- Property write `state[key] = v`: replace an existing key in place,
otherwise append. -/
def setBuf : SessionStateMap → String → EditBuffer → SessionStateMap
  | [], k, v => [(k, v)]
  | p :: rest, k, v => if p.1 = k then (k, v) :: rest else p :: setBuf rest k v

/-- Loop body of the `setSessionState` updater inside `NotebookView.refresh`
(part_005 lines 35-48): the condition reads the pre-refresh map `prev`
(`const existing = prev[key]`), the write goes to the copy `next`.  Note
that the html is recomputed from `session.blocks` unfiltered. -/
def refreshStep (prev : SessionStateMap) (term : String)
    (next : SessionStateMap) (session : NbSession) : SessionStateMap :=
  match lookupBuf prev session.id with
  | some e => if e.dirty then next else setBuf next session.id ⟨blocksToHtml session.blocks term, false⟩
  | none => setBuf next session.id ⟨blocksToHtml session.blocks term, false⟩

/-- Model of the `setSessionState` updater of `NotebookView.refresh`
(part_005 lines 29-51) applied to a successful fetch result `data`. -/
def refreshSessionState (prev : SessionStateMap) (data : List NbSession)
    (term : String) : SessionStateMap :=
  data.foldl (refreshStep prev term) prev

/-- The log filter applied in the render body (part_005 line 65):
`session.blocks.filter((b) => b.type !== "log")`. -/
def visibleBlocks (blocks : List NotebookBlock) : List NotebookBlock :=
  blocks.filter (fun b => b.type ≠ BlockType.log)

/-- The html prop handed to `TiptapEditor` (part_005 line 76):
`sessionState[String(session.id)]?.html ?? blocksToHtml(blocks, searchTerm)`
where `blocks` is the log-filtered list. -/
def editorHtml (state : SessionStateMap) (session : NbSession) (term : String) : String :=
  match lookupBuf state session.id with
  | some e => e.html
  | none => blocksToHtml (visibleBlocks session.blocks) term

/-- Model of the `onUpdate` callback of `TiptapEditor` (part_006 lines
30-40): the new html is forwarded to `onChange` only when the editor has
input focus; `none` means `onChange` was not invoked. -/
def tiptapOnUpdate (isFocused : Bool) (nextHtml : String) : Option String :=
  if isFocused then some nextHtml else none

/-- The `onChange` handler `NotebookView` passes to the editor (part_005
lines 78-83): store the new html and mark the buffer dirty. -/
def notebookOnChange (state : SessionStateMap) (sessionId : String)
    (html : String) : SessionStateMap :=
  setBuf state sessionId ⟨html, true⟩

/-- One editor content update as seen by the session state: `onUpdate`
gated by focus, then `onChange` when it fired. -/
def editorUpdate (state : SessionStateMap) (sessionId : String)
    (isFocused : Bool) (nextHtml : String) : SessionStateMap :=
  match tiptapOnUpdate isFocused nextHtml with
  | some h => notebookOnChange state sessionId h
  | none => state

/-! ## Session sidebar (src/ui/src/components/layout/LeftSidebar.tsx)

Session ids are numeric on the backend; the source shuttles them through
`String(id)` / `Number(id)` conversions, which are bijective on the numeric
ids and therefore modelled as the identity on `Nat`.  The optional
`isFavorite` / `isArchived` fields are booleans with `undefined` read as
`false`. -/

/-- Sidebar session record. -/
structure Session where
  id : Nat
  title : String
  description : Option String
  isFavorite : Bool
  isArchived : Bool
deriving DecidableEq

/-- Component state of `LeftSidebar`: the session list, the selected
session (`activeSessionId`), the rename state (`editingId`, `titleDraft`)
and the persisted favorites (`favoriteIds`). -/
structure SidebarState where
  sessions : List Session
  activeSessionId : Option Nat
  editingId : Option Nat
  titleDraft : String
  favoriteIds : List Nat
deriving DecidableEq

/-- Remote Gateway mutations issued by the sidebar (api/sessions.ts). -/
inductive ServerCall where
  | archiveSession : Nat → Bool → ServerCall
  | updateSessionTitle : Nat → String → ServerCall
deriving DecidableEq

/-- Diagnostic-channel events (`console.error`). -/
inductive LogEvent where
  | consoleError : String → LogEvent
deriving DecidableEq

/-- Where keyboard focus sits when a DOM event fires.  The window-level
keydown listener receives the event regardless of this, and its handler
never reads the event target, so the definitions below take the focus as an
argument they do not consult. -/
inductive FocusTarget where
  | searchInput | renameField | richTextEditor | sessionList | other
deriving DecidableEq

/-- JavaScript truthiness of `editingId : number | null`: `null` and `0`
are falsy. -/
def truthyId : Option Nat → Bool
  | none => false
  | some n => n != 0

/-- Per-session merge of `LeftSidebar.refresh` (lines 52-63): keep the
server record but overlay `isFavorite` with
`(existing && existing.isFavorite) || favoriteIds.includes(Number(s.id))`. -/
def mergeFetched (st : SidebarState) (s : Session) : Session :=
  { s with isFavorite :=
      (match st.sessions.find? (fun p => p.id = s.id) with
       | some e => e.isFavorite
       | none => false) || st.favoriteIds.contains s.id }

/-- Model of a successful `LeftSidebar.refresh` tick (lines 44-78): replace
the session list by the merged fetch result, then auto-select the last
fetched session when nothing is selected and the result is non-empty. -/
def refreshSessions (st : SidebarState) (data : List Session) : SidebarState :=
  { st with
    sessions := data.map (mergeFetched st),
    activeSessionId :=
      match st.activeSessionId with
      | some a => some a
      | none => (data.getLast?).map (fun s => s.id) }

/-- The stale closure read `sessions.find((s) => String(s.id) === String(id))?.isArchived`
inside `markFavorite` (line 150): it sees the render-time session list. -/
def staleArchived (closure : SidebarState) (id : Nat) : Bool :=
  match closure.sessions.find? (fun s => s.id = id) with
  | some s => s.isArchived
  | none => false

/-- Model of `markFavorite` (lines 137-153).  The functional state updates
(`setFavoriteIds`, `setSessions`) act on the current state `cur`; the
direct reads (`activeSessionId`, `sessions.find`) see the render-time
closure state `closure`.  The two coincide when `markFavorite` runs as its
own event handler, and differ when `setArchiveState` calls it after its own
`setSessions`.  The JS `Set` round-trip is modelled membership-faithfully:
add appends when absent, delete removes the id. -/
def markFavoriteCore (cur closure : SidebarState) (id : Nat) (isFav : Bool) : SidebarState :=
  { cur with
    favoriteIds :=
      if isFav then
        (if cur.favoriteIds.contains id then cur.favoriteIds else cur.favoriteIds ++ [id])
      else cur.favoriteIds.filter (fun n => n ≠ id),
    sessions := cur.sessions.map (fun s => if s.id = id then { s with isFavorite := isFav } else s),
    activeSessionId :=
      if closure.activeSessionId = some id ∧ isFav = false ∧ staleArchived closure id = true
      then none else cur.activeSessionId }

/-- `markFavorite` invoked as a standalone event handler (the ★ toggle):
closure and current state coincide.  The empty call list records that the
source body contains no Remote Gateway call. -/
def markFavorite (st : SidebarState) (id : Nat) (isFav : Bool) : SidebarState × List ServerCall :=
  (markFavoriteCore st st id isFav, [])

/-- Model of `setArchiveState` (lines 155-165): flip `isArchived` on the
matching session; when archiving, additionally run the `markFavorite(id,
false)` updates (whose closure reads still see the pre-archive state) and
clear the selection if the archived session was selected. -/
def setArchiveState (st : SidebarState) (id : Nat) (archivedState : Bool) : SidebarState :=
  let st1 := { st with
    sessions := st.sessions.map (fun s =>
      if s.id = id then { s with isArchived := archivedState } else s) }
  if archivedState then
    let st2 := markFavoriteCore st1 st id false
    if st.activeSessionId = some id then { st2 with activeSessionId := none } else st2
  else st1

/-- Model of `commitEditing` (lines 107-122).  `success` is the outcome of
the awaited `updateSessionTitle` mutation; the `try/catch/finally` makes
the handler total: on failure the error is logged and only `editingId` is
cleared.  `if (!editingId) return` also fires for the falsy id `0`. -/
def commitEditing (st : SidebarState) (success : Bool) :
    SidebarState × List ServerCall × List LogEvent :=
  match st.editingId with
  | none => (st, [], [])
  | some eid =>
    if eid = 0 then (st, [], [])
    else
      let newTitle := trimWs st.titleDraft
      if success then
        ({ st with
            sessions := st.sessions.map (fun s =>
              if s.id = eid then
                { s with title := if newTitle = "" then "Session " ++ toString s.id else newTitle }
              else s),
            editingId := none },
         [ServerCall.updateSessionTitle eid newTitle], [])
      else
        ({ st with editingId := none },
         [ServerCall.updateSessionTitle eid newTitle],
         [LogEvent.consoleError "Failed to update session title"])

/-- Model of the window-level keydown listener (lines 180-195): bail out
when a rename is in progress (`if (editingId) return`, JS truthiness) or
nothing is selected, otherwise archive the selected session on
Backspace/Delete.  The handler never inspects `focus`: the listener is
installed on `window` and the body reads no event target. -/
def globalKeydown (st : SidebarState) (key : String) (focus : FocusTarget)
    (archiveOk : Bool) : SidebarState × List ServerCall × List LogEvent :=
  if truthyId st.editingId then (st, [], [])
  else if key = "Backspace" || key = "Delete" then
    match st.activeSessionId with
    | none => (st, [], [])
    | some a =>
      if archiveOk then (setArchiveState st a true, [ServerCall.archiveSession a true], [])
      else (st, [ServerCall.archiveSession a true], [LogEvent.consoleError "Failed to archive session"])
  else (st, [], [])

/-! ## Basic lemmas about the session-state map -/

theorem lookupBuf_setBuf_self (m : SessionStateMap) (k : String) (v : EditBuffer) :
    lookupBuf (setBuf m k v) k = some v := by
  induction m with
  | nil => simp [setBuf, lookupBuf]
  | cons p rest ih =>
    by_cases h : p.1 = k
    · simp [setBuf, lookupBuf, h]
    · simp [setBuf, lookupBuf, h, ih]

theorem lookupBuf_setBuf_ne (m : SessionStateMap) (k k' : String) (v : EditBuffer)
    (h : k' ≠ k) : lookupBuf (setBuf m k' v) k = lookupBuf m k := by
  induction m with
  | nil => simp [setBuf, lookupBuf, h]
  | cons p rest ih =>
    by_cases hp : p.1 = k'
    · subst hp
      simp [setBuf, lookupBuf, h]
    · simp only [setBuf, if_neg hp]
      by_cases hk : p.1 = k <;> simp [lookupBuf, hk, ih]

theorem refreshStep_pres (prev : SessionStateMap) (term : String) (acc : SessionStateMap)
    (s : NbSession) (k : String) (e : EditBuffer)
    (hp : lookupBuf prev k = some e) (hd : e.dirty = true)
    (ha : lookupBuf acc k = some e) :
    lookupBuf (refreshStep prev term acc s) k = some e := by
  unfold refreshStep
  by_cases hid : s.id = k
  · rw [hid, hp]
    simpa [hd] using ha
  · cases hpe : lookupBuf prev s.id with
    | none => rw [lookupBuf_setBuf_ne _ _ _ _ hid]; exact ha
    | some e' =>
      by_cases hde : e'.dirty
      · simpa [hde] using ha
      · simp only [hde, if_neg]
        simp only [Bool.false_eq_true, if_false]
        rw [lookupBuf_setBuf_ne _ _ _ _ hid]; exact ha

theorem foldl_refreshStep_pres (prev : SessionStateMap) (term : String)
    (data : List NbSession) (acc : SessionStateMap) (k : String) (e : EditBuffer)
    (hp : lookupBuf prev k = some e) (hd : e.dirty = true)
    (ha : lookupBuf acc k = some e) :
    lookupBuf (data.foldl (refreshStep prev term) acc) k = some e := by
  induction data generalizing acc with
  | nil => simpa using ha
  | cons s rest ih => exact ih _ (refreshStep_pres prev term acc s k e hp hd ha)

theorem foldl_refreshStep_other (prev : SessionStateMap) (term : String)
    (data : List NbSession) (acc : SessionStateMap) (k : String)
    (h : ∀ t ∈ data, t.id ≠ k) :
    lookupBuf (data.foldl (refreshStep prev term) acc) k = lookupBuf acc k := by
  induction data generalizing acc with
  | nil => rfl
  | cons s rest ih =>
    have hs : s.id ≠ k := h s (List.mem_cons_self _ _)
    have hrest : ∀ t ∈ rest, t.id ≠ k := fun t ht => h t (List.mem_cons_of_mem _ ht)
    rw [List.foldl_cons, ih _ hrest]
    unfold refreshStep
    cases lookupBuf prev s.id with
    | none => exact lookupBuf_setBuf_ne _ _ _ _ hs
    | some e' =>
      by_cases hde : e'.dirty <;> simp [hde, lookupBuf_setBuf_ne _ _ _ _ hs]

theorem foldl_refreshStep_clean (prev : SessionStateMap) (term : String)
    (data : List NbSession) (acc : SessionStateMap) (s : NbSession)
    (hmem : s ∈ data) (hnd : (data.map NbSession.id).Nodup)
    (hclean : ∀ e, lookupBuf prev s.id = some e → e.dirty = false) :
    lookupBuf (data.foldl (refreshStep prev term) acc) s.id
      = some ⟨blocksToHtml s.blocks term, false⟩ := by
  induction data generalizing acc with
  | nil => cases hmem
  | cons t rest ih =>
    rw [List.map_cons, List.nodup_cons] at hnd
    rcases List.mem_cons.mp hmem with rfl | hmem'
    · have hrest : ∀ u ∈ rest, u.id ≠ s.id := by
        intro u hu he
        exact hnd.1 (he ▸ List.mem_map_of_mem NbSession.id hu)
      rw [List.foldl_cons, foldl_refreshStep_other prev term rest _ _ hrest]
      unfold refreshStep
      cases hpe : lookupBuf prev s.id with
      | none => exact lookupBuf_setBuf_self _ _ _
      | some e' => simp [hclean e' hpe, lookupBuf_setBuf_self]
    · exact ih _ hmem' hnd.2

/-! ## Lemmas about the highlight segmentation -/

theorem scanGo_eq_renderPieces (q0 : Char) (qs : List Char) :
    ∀ fuel cs, scanGo q0 qs fuel cs = renderPieces (segGo q0 qs fuel cs) := by
  intro fuel
  induction fuel with
  | zero => intro cs; cases cs <;> rfl
  | succ f ih =>
    intro cs
    cases cs with
    | nil => rfl
    | cons c rest =>
      by_cases hm : matchesAt (c :: rest) (q0 :: qs) = true
      · simp [scanGo, segGo, hm, renderPieces, renderPiece, ih]
      · simp [scanGo, segGo, hm, renderPieces, renderPiece, ih]

theorem piecesChars_segGo (q0 : Char) (qs : List Char) :
    ∀ fuel cs, cs.length ≤ fuel → piecesChars (segGo q0 qs fuel cs) = cs := by
  intro fuel
  induction fuel with
  | zero =>
    intro cs h
    cases cs with
    | nil => rfl
    | cons c rest => simp at h
  | succ f ih =>
    intro cs h
    cases cs with
    | nil => rfl
    | cons c rest =>
      by_cases hm : matchesAt (c :: rest) (q0 :: qs) = true
      · have hd : (List.drop qs.length rest).length ≤ f := by
          simp only [List.length_drop]
          simp only [List.length_cons] at h
          omega
        simp [segGo, hm, piecesChars, pieceChars, ih _ hd, List.take_append_drop]
      · have hr : rest.length ≤ f := by
          simp only [List.length_cons] at h
          omega
        simp [segGo, hm, piecesChars, pieceChars, ih _ hr]

theorem matchesAt_take_ciEq :
    ∀ (q cs : List Char), matchesAt cs q = true → ciEq (cs.take q.length) q = true := by
  intro q
  induction q with
  | nil => intro cs _; rfl
  | cons qh qt ih =>
    intro cs h
    cases cs with
    | nil => simp [matchesAt] at h
    | cons ch ct =>
      simp only [matchesAt, Bool.and_eq_true, beq_iff_eq] at h
      have h2 := ih ct h.2
      simp only [ciEq, beq_iff_eq, List.map] at h2 ⊢
      simp [List.take_succ_cons, h.1, h2]

theorem segGo_mark_ciEq (q0 : Char) (qs : List Char) :
    ∀ fuel cs m, HPiece.mark m ∈ segGo q0 qs fuel cs → ciEq m (q0 :: qs) = true := by
  intro fuel
  induction fuel with
  | zero =>
    intro cs m h
    cases cs with
    | nil => simp [segGo] at h
    | cons c rest => simp [segGo] at h
  | succ f ih =>
    intro cs m h
    cases cs with
    | nil => simp [segGo] at h
    | cons c rest =>
      simp only [segGo] at h
      by_cases hm : matchesAt (c :: rest) (q0 :: qs) = true
      · rw [if_pos hm] at h
        rcases List.mem_cons.mp h with he | h'
        · obtain rfl : m = (c :: rest).take (qs.length + 1) := by injection he
          exact matchesAt_take_ciEq (q0 :: qs) (c :: rest) hm
        · exact ih _ _ h'
      · rw [if_neg hm] at h
        rcases List.mem_cons.mp h with he | h'
        · simp at he
        · exact ih _ _ h'

theorem segGo_raw_no_match (q0 : Char) (qs : List Char) :
    ∀ fuel cs, cs.length ≤ fuel →
      ∀ l c r, segGo q0 qs fuel cs = l ++ HPiece.raw c :: r →
        matchesAt (c :: piecesChars r) (q0 :: qs) = false := by
  intro fuel
  induction fuel with
  | zero =>
    intro cs h l c r he
    cases cs with
    | nil => simp [segGo] at he
    | cons c' rest => simp at h
  | succ f ih =>
    intro cs h l c r he
    cases cs with
    | nil => simp [segGo] at he
    | cons c' rest =>
      simp only [segGo] at he
      by_cases hm : matchesAt (c' :: rest) (q0 :: qs) = true
      · rw [if_pos hm] at he
        cases l with
        | nil => simp at he
        | cons p l' =>
          rw [List.cons_append] at he
          injection he with h1 h2
          have hd : ((c' :: rest).drop (qs.length + 1)).length ≤ f := by
            simp only [List.length_drop, List.length_cons]
            simp only [List.length_cons] at h
            omega
          exact ih _ hd l' c r h2
      · rw [if_neg hm] at he
        have hr : rest.length ≤ f := by
          simp only [List.length_cons] at h
          omega
        cases l with
        | nil =>
          simp only [List.nil_append] at he
          injection he with h1 h2
          injection h1 with hc
          subst hc
          subst h2
          rw [piecesChars_segGo q0 qs f rest hr]
          simpa using hm
        | cons p l' =>
          rw [List.cons_append] at he
          injection he with h1 h2
          exact ih _ hr l' c r h2

/-! ## Claim theorems -/

/-- C1: a notebook refresh leaves every dirty session's stored rendered
content untouched, replaces the stored content of every fetched session
whose buffer is not dirty (or absent) with the rendering of the freshly
fetched blocks, and once a buffer is dirty no sequence of subsequent
refreshes alters its entry. -/
theorem notebook_refresh_dirty_protocol :
    (∀ prev data term k e, lookupBuf prev k = some e → e.dirty = true →
       lookupBuf (refreshSessionState prev data term) k = some e) ∧
    (∀ prev data term s, s ∈ data → (List.map NbSession.id data).Nodup →
       (∀ e, lookupBuf prev s.id = some e → e.dirty = false) →
       lookupBuf (refreshSessionState prev data term) s.id
         = some ⟨blocksToHtml s.blocks term, false⟩) ∧
    (∀ (fetches : List (List NbSession × String)) st k e,
       lookupBuf st k = some e → e.dirty = true →
       lookupBuf (fetches.foldl (fun acc p => refreshSessionState acc p.1 p.2) st) k = some e) := by
  refine ⟨?_, ?_, ?_⟩
  · intro prev data term k e hp hd
    exact foldl_refreshStep_pres prev term data prev k e hp hd hp
  · intro prev data term s hmem hnd hclean
    exact foldl_refreshStep_clean prev term data prev s hmem hnd hclean
  · intro fetches
    induction fetches with
    | nil => intro st k e hp _; simpa using hp
    | cons p rest ih =>
      intro st k e hp hd
      exact ih _ k e (foldl_refreshStep_pres st p.2 p.1 st k e hp hd hp) hd

def bufC1 : EditBuffer := ⟨"typed text", true⟩

theorem notebook_refresh_dirty_protocol_witness :
    lookupBuf [("1", bufC1)] "1" = some bufC1 ∧ bufC1.dirty = true ∧
    lookupBuf (refreshSessionState [("1", bufC1)] [⟨"1", "T", []⟩] "") "1" = some bufC1 :=
  ⟨rfl, rfl,
    notebook_refresh_dirty_protocol.1 [("1", bufC1)] [⟨"1", "T", []⟩] "" "1" bufC1 rfl rfl⟩

/-- C2: an editor content update stores the new html and marks the buffer
dirty exactly when the editor has input focus; an update without focus
(programmatic content swap) leaves the session state untouched. -/
theorem editor_update_dirty_iff_focused :
    (∀ (state : SessionStateMap) (k h : String),
       lookupBuf (editorUpdate state k true h) k = some ⟨h, true⟩) ∧
    (∀ (state : SessionStateMap) (k h : String), editorUpdate state k false h = state) := by
  constructor
  · intro state k h
    simp [editorUpdate, tiptapOnUpdate, notebookOnChange, lookupBuf_setBuf_self]
  · intro state k h
    rfl

/-- C3: with an empty (after trimming) term, highlighting returns the input
with angle brackets escaped and nothing else changed.  With a non-empty
term, for every text and term the output is the rendering of a segmentation
of the whole input text in which every piece is escaped, every mark-wrapped
piece is a case-insensitive occurrence of the trimmed term, and no
occurrence of the term starts at any unwrapped character — i.e. every
occurrence, in the global non-overlapping sense of the `gi` regex search,
is wrapped in the mark element and the rest escaped.  The two concrete
examples of the claim are included. -/
theorem highlight_escapes_and_marks :
    (∀ text term, trimWs term = "" → highlightText text term = escapeHtml text) ∧
    (∀ text term q0 qs, (trimWs term).data = q0 :: qs →
       ∃ segs : List HPiece,
         highlightText text term = renderPieces segs ∧
         piecesChars segs = text.data ∧
         (∀ m, HPiece.mark m ∈ segs → ciEq m (q0 :: qs) = true) ∧
         (∀ l c r, segs = l ++ HPiece.raw c :: r →
            matchesAt (c :: piecesChars r) (q0 :: qs) = false)) ∧
    highlightText "<script>" "" = "&lt;script&gt;" ∧
    highlightText "warm bath" "bat" = "warm <mark class=\"search-highlight\">bat</mark>h" := by
  refine ⟨?_, ?_, by decide, by decide⟩
  · intro text term h
    unfold highlightText
    rw [h]
  · intro text term q0 qs hq
    refine ⟨segGo q0 qs text.data.length text.data, ?_, ?_, ?_, ?_⟩
    · unfold highlightText
      rw [hq]
      exact scanGo_eq_renderPieces q0 qs _ _
    · exact piecesChars_segGo q0 qs _ _ (le_refl _)
    · exact fun m hm => segGo_mark_ciEq q0 qs _ _ m hm
    · exact fun l c r he => segGo_raw_no_match q0 qs _ _ (le_refl _) l c r he

theorem highlight_escapes_and_marks_witness :
    (trimWs "  " = "" ∧ highlightText "a<b" "  " = escapeHtml "a<b") ∧
    ((trimWs "bat").data = 'b' :: ['a', 't'] ∧
     ∃ segs : List HPiece,
       highlightText "warm bath" "bat" = renderPieces segs ∧
       piecesChars segs = "warm bath".data ∧
       (∀ m, HPiece.mark m ∈ segs → ciEq m ('b' :: ['a', 't']) = true) ∧
       (∀ l c r, segs = l ++ HPiece.raw c :: r →
          matchesAt (c :: piecesChars r) ('b' :: ['a', 't']) = false)) :=
  ⟨⟨by decide, highlight_escapes_and_marks.1 "a<b" "  " (by decide)⟩,
   ⟨by decide, highlight_escapes_and_marks.2.1 "warm bath" "bat" 'b' ['a', 't'] (by decide)⟩⟩

/-- C10: a successful directory refresh auto-selects the last fetched
session exactly when no session is selected and the result is non-empty;
an existing selection or an empty result leaves the selection as is. -/
theorem refresh_autoselects_last_session :
    (∀ st data s, st.activeSessionId = none → data.getLast? = some s →
       (refreshSessions st data).activeSessionId = some s.id) ∧
    (∀ st data a, st.activeSessionId = some a →
       (refreshSessions st data).activeSessionId = some a) ∧
    (∀ st, st.activeSessionId = none → (refreshSessions st []).activeSessionId = none) := by
  refine ⟨?_, ?_, ?_⟩
  · intro st data s h hl
    simp [refreshSessions, h, hl]
  · intro st data a h
    simp [refreshSessions, h]
  · intro st h
    simp [refreshSessions, h]

def sessA : Session := ⟨1, "A", none, false, false⟩

def sessB : Session := ⟨2, "B", none, false, false⟩

def stC10 : SidebarState := ⟨[], none, none, "", []⟩

theorem refresh_autoselects_last_session_witness :
    stC10.activeSessionId = none ∧ [sessA, sessB].getLast? = some sessB ∧
    (refreshSessions stC10 [sessA, sessB]).activeSessionId = some 2 :=
  ⟨rfl, rfl, refresh_autoselects_last_session.1 stC10 [sessA, sessB] sessB rfl rfl⟩

/-- C7: committing a rename with an empty-after-trim draft applies the
fallback title `Session <id>` locally on mutation success, while a
non-empty trimmed draft becomes the title as typed. -/
theorem commit_rename_fallback_title :
    ∀ st eid, st.editingId = some eid → eid ≠ 0 →
      ((trimWs st.titleDraft = "" →
         (commitEditing st true).1.sessions = st.sessions.map (fun s =>
           if s.id = eid then { s with title := "Session " ++ toString s.id } else s)) ∧
       (trimWs st.titleDraft ≠ "" →
         (commitEditing st true).1.sessions = st.sessions.map (fun s =>
           if s.id = eid then { s with title := trimWs st.titleDraft } else s))) := by
  intro st eid he h0
  constructor
  · intro ht
    simp [commitEditing, he, h0, ht]
  · intro ht
    simp [commitEditing, he, h0, ht]

def stC7 : SidebarState := ⟨[⟨7, "Old", none, false, false⟩], none, some 7, "  ", []⟩

theorem commit_rename_fallback_title_witness :
    stC7.editingId = some 7 ∧ trimWs stC7.titleDraft = "" ∧
    (commitEditing stC7 true).1.sessions = [⟨7, "Session 7", none, false, false⟩] := by
  refine ⟨rfl, by decide, ?_⟩
  have h := (commit_rename_fallback_title stC7 7 rfl (by decide)).1 (by decide)
  rw [h]
  decide

/-- C8: when the rename mutation fails, the session list is left unchanged,
only the editing mode is exited, the failure is logged to the diagnostic
channel, and the (caught) handler returns normally — the whole outcome is
the prior state with `editingId` cleared plus the issued call and the log
entry. -/
theorem commit_rename_failure_discards :
    ∀ st eid, st.editingId = some eid → eid ≠ 0 →
      commitEditing st false =
        ({ st with editingId := none },
         [ServerCall.updateSessionTitle eid (trimWs st.titleDraft)],
         [LogEvent.consoleError "Failed to update session title"]) := by
  intro st eid he h0
  simp [commitEditing, he, h0]

def stC8 : SidebarState := ⟨[⟨3, "Keep", none, false, false⟩], some 3, some 3, "New name", []⟩

theorem commit_rename_failure_discards_witness :
    stC8.editingId = some 3 ∧
    (commitEditing stC8 false).1.sessions = stC8.sessions ∧
    (commitEditing stC8 false).1.editingId = none ∧
    (commitEditing stC8 false).2.2 = [LogEvent.consoleError "Failed to update session title"] := by
  have h := commit_rename_failure_discards stC8 3 rfl (by decide)
  refine ⟨rfl, ?_, ?_, ?_⟩ <;> rw [h]

/-- C9: favoriting then unfavoriting a session leaves its `isFavorite`
flag false and its id out of the favorites set, and neither operation
issues a Remote Gateway call. -/
theorem favorite_toggle_roundtrip :
    ∀ st id,
      (∀ s ∈ ((markFavorite (markFavorite st id true).1 id false).1).sessions,
         s.id = id → s.isFavorite = false) ∧
      id ∉ ((markFavorite (markFavorite st id true).1 id false).1).favoriteIds ∧
      (markFavorite st id true).2 = [] ∧
      (markFavorite (markFavorite st id true).1 id false).2 = [] := by
  intro st id
  refine ⟨?_, ?_, rfl, rfl⟩
  · intro s hs hid
    simp only [markFavorite, markFavoriteCore, List.map_map, List.mem_map,
      Function.comp] at hs
    obtain ⟨s0, _, rfl⟩ := hs
    by_cases h : s0.id = id
    · simp [h]
    · simp [h] at hid
  · simp [markFavorite, markFavoriteCore, List.mem_filter]

def stC9 : SidebarState := ⟨[⟨5, "E", none, false, false⟩], none, none, "", []⟩

theorem favorite_toggle_roundtrip_witness :
    (⟨5, "E", none, false, false⟩ : Session) ∈ stC9.sessions ∧
    (∀ s ∈ ((markFavorite (markFavorite stC9 5 true).1 5 false).1).sessions,
       s.id = 5 → s.isFavorite = false) ∧
    5 ∉ ((markFavorite (markFavorite stC9 5 true).1 5 false).1).favoriteIds :=
  ⟨List.mem_singleton.mpr rfl,
   (favorite_toggle_roundtrip stC9 5).1,
   (favorite_toggle_roundtrip stC9 5).2.1⟩

theorem setArchiveState_sessions (st : SidebarState) (id : Nat) :
    (setArchiveState st id true).sessions
      = (st.sessions.map (fun s => if s.id = id then { s with isArchived := true } else s)).map
          (fun s => if s.id = id then { s with isFavorite := false } else s) := by
  unfold setArchiveState markFavoriteCore
  by_cases hA : st.activeSessionId = some id <;> simp [hA]

theorem setArchiveState_favoriteIds (st : SidebarState) (id : Nat) :
    (setArchiveState st id true).favoriteIds = st.favoriteIds.filter (fun n => n ≠ id) := by
  unfold setArchiveState markFavoriteCore
  by_cases hA : st.activeSessionId = some id <;> simp [hA]

theorem setArchiveState_active (st : SidebarState) (id : Nat) :
    (setArchiveState st id true).activeSessionId ≠ some id := by
  unfold setArchiveState markFavoriteCore
  by_cases hA : st.activeSessionId = some id <;> simp [hA]

/-- C4 (amended): archiving a session always leaves it archived and
unfavorited, removes its id from the favorites set, and never leaves it
selected — the archive operation itself cannot produce an
archived-and-favorited session. -/
theorem setArchived_clears_favorite :
    ∀ st id,
      (∀ s ∈ (setArchiveState st id true).sessions,
         s.id = id → s.isArchived = true ∧ s.isFavorite = false) ∧
      id ∉ (setArchiveState st id true).favoriteIds ∧
      (setArchiveState st id true).activeSessionId ≠ some id := by
  intro st id
  refine ⟨?_, ?_, setArchiveState_active st id⟩
  · intro s hs hid
    rw [setArchiveState_sessions] at hs
    simp only [List.map_map, List.mem_map, Function.comp] at hs
    obtain ⟨s0, _, rfl⟩ := hs
    by_cases h : s0.id = id
    · simp [h]
    · simp [h] at hid
  · rw [setArchiveState_favoriteIds]
    simp [List.mem_filter]

def stC4 : SidebarState := ⟨[⟨5, "Run", none, true, false⟩], some 5, none, "", [5]⟩

theorem setArchived_clears_favorite_witness :
    (⟨5, "Run", none, true, false⟩ : Session) ∈ stC4.sessions ∧
    (∀ s ∈ (setArchiveState stC4 5 true).sessions,
       s.id = 5 → s.isArchived = true ∧ s.isFavorite = false) ∧
    5 ∉ (setArchiveState stC4 5 true).favoriteIds ∧
    (setArchiveState stC4 5 true).activeSessionId ≠ some 5 :=
  ⟨List.mem_singleton.mpr rfl,
   (setArchived_clears_favorite stC4 5).1,
   (setArchived_clears_favorite stC4 5).2.1,
   (setArchived_clears_favorite stC4 5).2.2⟩

def cexStart : SidebarState := ⟨[], none, none, "", []⟩

def cexAfterFetch : SidebarState := refreshSessions cexStart [⟨5, "Run", none, false, false⟩]

def cexAfterFav : SidebarState := (markFavorite cexAfterFetch 5 true).1

def cexFinal : SidebarState := refreshSessions cexAfterFav [⟨5, "Run", none, false, true⟩]

/-- C4 counterexample: a state with a session that is both archived and
favorited is reachable without any archive operation — fetch session 5,
favorite it, then refresh while the server reports it archived: the merge
in `refresh` keeps the local favorite flag on the server-archived record. -/
theorem archived_favorite_reachable :
    cexFinal.sessions = [⟨5, "Run", none, true, true⟩] ∧
    ∃ s ∈ cexFinal.sessions, s.isArchived = true ∧ s.isFavorite = true :=
  ⟨by decide, ⟨⟨5, "Run", none, true, true⟩, by decide, rfl, rfl⟩⟩

def logBlock : NotebookBlock := ⟨"b1", BlockType.log, ⟨none, none, "log-line: device rebooted"⟩⟩

def logSession : NbSession := ⟨"1", "S", [logBlock]⟩

/-- C5: contrary to the claim, a log block's payload does appear in the
user-facing rendering — `NotebookView.refresh` renders `session.blocks`
unfiltered, stores the result, and that stored html is what the editor
receives; only the fallback path (no stored state) filters log blocks, and
the filtered rendering of this session would be empty. -/
theorem log_blocks_survive_refresh_render :
    lookupBuf (refreshSessionState [] [logSession] "") "1"
      = some ⟨"<p>log-line: device rebooted</p>", false⟩ ∧
    editorHtml (refreshSessionState [] [logSession] "") logSession ""
      = "<p>log-line: device rebooted</p>" ∧
    blocksToHtml (visibleBlocks logSession.blocks) "" = "" := by
  exact ⟨by decide, by decide, by decide⟩

def stC6 : SidebarState := ⟨[⟨5, "Exp 5", none, false, false⟩], some 5, none, "", []⟩

/-- C6: contrary to the claim, the global Backspace listener fires while
the search input or the rich-text editor has focus — the handler only
checks `editingId` and `activeSessionId`, never the event target: with
session 5 selected and no rename open, Backspace issues the archive
mutation and archives session 5 whatever has focus. -/
theorem keydown_archives_despite_text_focus :
    (globalKeydown stC6 "Backspace" FocusTarget.searchInput true).2.1
       = [ServerCall.archiveSession 5 true] ∧
    ((globalKeydown stC6 "Backspace" FocusTarget.searchInput true).1.sessions.any
       (fun s => s.id == 5 && s.isArchived)) = true ∧
    (globalKeydown stC6 "Backspace" FocusTarget.richTextEditor true).2.1
       = [ServerCall.archiveSession 5 true] ∧
    globalKeydown stC6 "Backspace" FocusTarget.searchInput true
       = globalKeydown stC6 "Backspace" FocusTarget.other true := by
  exact ⟨by decide, by decide, by decide, rfl⟩

end LabJ
